import Mathlib

/-!
Shallow embedding of `teuthology/task/ceph-fuse.py`: the ceph-fuse
mount/unmount orchestrator (`task`, a context manager) together with its
helpers `_fuse_unmount`, `_abort_fuse_mount` and `_wait_for_daemons`.

The orchestrator drives remote commands on a set of clients.  External
collaborators (the remote command transport `remote.run`, `run.wait`,
`teuthology.wait_until_fuse_mounted`, `teuthology.get_valgrind_args`, and
the client-set resolution at the top of `task`) are abstracted: the
embedding takes the resolved client list as input, a per-client `World`
record scripts the outcome of each remote command and of each `run.wait`
call, and `get_valgrind_args` is a function parameter.  Every remote
command the orchestrator issues is recorded as an `Event`, so the theorems
speak about the event trace and the final outcome.
-/

namespace CephFuse

/-- Per-client configuration, the `client_config` dictionary of the source
(`coverage`, `valgrind`, `timeout`, `cleanup_on_failure`); a missing
dictionary is the record of defaults. -/
structure ClientConfig where
  coverage : Bool := false
  valgrind : Option (List String) := none
  timeout : Option Nat := none
  cleanup_on_failure : Bool := false
  deriving Repr, DecidableEq

/-- One resolved client: the pair `(id_, remote)` of the source's `clients`
list together with its merged configuration. -/
structure Client where
  id : String
  remote : String
  cfg : ClientConfig
  deriving Repr, DecidableEq

/-- Result of one synchronous `remote.run` command: normal return, or a
`run.CommandFailedError`. -/
inductive CmdResult where
  | ok
  | fail
  deriving Repr, DecidableEq

/-- Outcome of one `run.wait(fuse_daemons.itervalues(), timeout=...)` call:
normal return, a gevent `Timeout`, or a `run.CommandFailedError`. -/
inductive WaitOutcome where
  | ok
  | timeout
  | cmdfail
  deriving Repr, DecidableEq

/-- The environment's scripted responses for one client's commands.
`waitScript` lists the outcome of each successive `run.wait` call inside
`_wait_for_daemons` for this client's teardown iteration; the real loop can
call `run.wait` any number of times, so a run that exhausts the script
models a loop that never ends. -/
structure World where
  mkdirRes : CmdResult := .ok
  mountRes : CmdResult := .ok
  unmountRes : CmdResult := .ok
  abortEchoRes : CmdResult := .ok
  abortUmountRes : CmdResult := .ok
  waitScript : List WaitOutcome := [.ok]
  rmdirRes : CmdResult := .ok
  deriving Repr, DecidableEq

/-- Observable steps of the orchestrator, in the order they are issued.
Each carries the client id of the loop iteration issuing it. -/
inductive Event where
  /-- `remote.run(['mkdir', '--', mnt])` during launch. -/
  | mkdirEv (id : String) (mnt : String)
  /-- the asynchronous `remote.run(args=run_cmd, wait=False)` launch. -/
  | launchEv (id : String) (cmd : List String)
  /-- `teuthology.wait_until_fuse_mounted(remote, fuse, mountpoint)`. -/
  | mountWaitEv (id : String)
  /-- the `yield`: the enclosed workload runs (`none` = normal return,
  `some s` = the workload raised exception `s`). -/
  | yieldEv (body : Option String)
  /-- `_fuse_unmount`: `remote.run(['fusermount', '-u', mnt])`. -/
  | unmountEv (id : String) (mnt : String)
  /-- `log.error('fuse failed to unmount, cleaning up anyway')`. -/
  | logUnmountFailEv (id : String)
  /-- first command of `_abort_fuse_mount`:
  `echo 1 > /sys/fs/fuse/connections/*/abort`. -/
  | abortEchoEv (id : String)
  /-- second command of `_abort_fuse_mount`:
  `sudo umount -l -f mnt`. -/
  | abortUmountEv (id : String) (mnt : String)
  /-- one `run.wait(fuse_daemons.itervalues(), timeout=timeout)` call:
  `daemons` is every handle in the registry, `tmo` the timeout argument
  (`none` = wait indefinitely). -/
  | daemonWaitEv (id : String) (daemons : List String) (tmo : Option Nat)
  /-- `log.error('fuse client did not exit after {timeout} seconds')`. -/
  | logWaitTimeoutEv (id : String) (tmo : Option Nat)
  /-- `remote.run(['sudo', 'killall', '-9', 'ceph-fuse'])` on `remote`. -/
  | killallEv (id : String) (remote : String)
  /-- `log.info('ceph-fuse process failed, cleaning up anyway')`. -/
  | logWaitFailEv (id : String)
  /-- final pass: `remote.run(['rmdir', '--', mnt])`. -/
  | rmdirEv (id : String) (mnt : String)
  deriving Repr, DecidableEq

/-- Errors the orchestrator can raise, each tagged with the client whose
iteration raised it. -/
inductive Err where
  | mkdirFail (id : String)
  | mountFail (id : String)
  | unmountFail (id : String)
  | abortFail (id : String)
  | waitFail (id : String)
  | rmdirFail (id : String)
  deriving Repr, DecidableEq

/-- Result of the whole `task` scope as seen by the caller. -/
inductive Outcome where
  /-- normal completion. -/
  | ok
  /-- an error of the orchestrator itself propagates (a teardown error
  raised inside the `finally` supersedes any workload exception). -/
  | exn (e : Err)
  /-- the workload's own exception propagates (teardown completed). -/
  | bodyExn (s : String)
  /-- the `_wait_for_daemons` loop of this client's iteration never
  returned (its scripted outcomes ran out, all timeouts). -/
  | diverged (id : String)
  deriving Repr, DecidableEq

/-- `mnt = os.path.join('/tmp/cephtest', 'mnt.{id}')`. -/
def mnt (id : String) : String := "/tmp/cephtest/mnt." ++ id

/-- `daemon_signal`: `'kill'`, or `'term'` when
`client_config.get('coverage') or client_config.get('valgrind') is not None`. -/
def daemonSignal (cfg : ClientConfig) : String :=
  if cfg.coverage || cfg.valgrind.isSome then "term" else "kill"

/-- the fixed `run_cmd` wrapper head built at lines 152-158 of the source. -/
def cmdHead (sig : String) : List String :=
  ["/tmp/cephtest/enable-coredump",
   "/tmp/cephtest/binary/usr/local/bin/ceph-coverage",
   "/tmp/cephtest/archive/coverage",
   "/tmp/cephtest/daemon-helper",
   sig]

/-- `run_cmd_tail`: the ceph-fuse binary invocation, lines 159-166. -/
def cmdTail (id : String) : List String :=
  ["/tmp/cephtest/binary/usr/local/bin/ceph-fuse",
   "-f",
   "--name", "client." ++ id,
   "-c", "/tmp/cephtest/ceph.conf",
   mnt id]

/-- the full launch command: head, then `get_valgrind_args` output when
`valgrind` is configured, then the tail (lines 152-176).  `vArgs` stands
for the external `teuthology.get_valgrind_args`. -/
def buildCmd (vArgs : String → List String → List String) (c : Client) :
    List String :=
  cmdHead (daemonSignal c.cfg) ++
    (match c.cfg.valgrind with
     | some v => vArgs ("client." ++ c.id) v
     | none => []) ++
  cmdTail c.id

/-- launch loop body for one client (lines 130-184): `mkdir` the mount
point, then start the daemon asynchronously and register its handle. -/
def launchClient (vArgs : String → List String → List String)
    (c : Client) (w : World) : List Event × Option Err :=
  match w.mkdirRes with
  | .fail => ([.mkdirEv c.id (mnt c.id)], some (.mkdirFail c.id))
  | .ok =>
    ([.mkdirEv c.id (mnt c.id), .launchEv c.id (buildCmd vArgs c)], none)

/-- first launch pass over all clients; a failed `mkdir` raises and aborts
the pass. -/
def launchAll (vArgs : String → List String → List String) :
    List (Client × World) → List Event × Option Err
  | [] => ([], none)
  | (c, w) :: rest =>
    match launchClient vArgs c w with
    | (evs, some e) => (evs, some e)
    | (evs, none) =>
      let r := launchAll vArgs rest
      (evs ++ r.1, r.2)

/-- second pass (lines 186-192): wait for every mount to come up; a client
whose mount never appears raises and aborts the pass. -/
def mountWaitAll : List (Client × World) → List Event × Option Err
  | [] => ([], none)
  | (c, w) :: rest =>
    match w.mountRes with
    | .fail => ([.mountWaitEv c.id], some (.mountFail c.id))
    | .ok =>
      let r := mountWaitAll rest
      (.mountWaitEv c.id :: r.1, r.2)

/-- Result of `_wait_for_daemons` for one script: the loop returned, the
inner `run.wait` raised `CommandFailedError`, or the script ran out while
every call timed out (the real loop would still be running). -/
inductive WaitResult where
  | ok
  | cmdfail
  | scriptEnd
  deriving Repr, DecidableEq

/-- `_wait_for_daemons(remote, fuse_daemons, timeout)` (lines 41-61): call
`run.wait` on every registered daemon with the given timeout; a `Timeout`
logs the elapsed duration, sends `killall -9 ceph-fuse` to the host, and
re-enters the wait; any other outcome ends the loop. -/
def waitForDaemons (c : Client) (daemons : List String) (tmo : Option Nat) :
    List WaitOutcome → List Event × WaitResult
  | [] => ([], .scriptEnd)
  | .ok :: _ => ([.daemonWaitEv c.id daemons tmo], .ok)
  | .cmdfail :: _ => ([.daemonWaitEv c.id daemons tmo], .cmdfail)
  | .timeout :: rest =>
    let r := waitForDaemons c daemons tmo rest
    (.daemonWaitEv c.id daemons tmo :: .logWaitTimeoutEv c.id tmo ::
       .killallEv c.id c.remote :: r.1, r.2)

/-- How one client's teardown iteration (or the loop over all of them)
ends: fell through, raised, or never returned. -/
inductive TDResult where
  | ok
  | raised (e : Err)
  | diverged (id : String)
  deriving Repr, DecidableEq

/-- teardown step 1 for one client (lines 205-212): try the graceful
unmount (`_fuse_unmount`); on `CommandFailedError` re-raise unless
`cleanup_on_failure`, in which case log and run `_abort_fuse_mount`,
whose own failures are not caught. -/
def stepOne (c : Client) (w : World) : List Event × Option Err :=
  let m := mnt c.id
  match w.unmountRes with
  | .ok => ([.unmountEv c.id m], none)
  | .fail =>
    if c.cfg.cleanup_on_failure then
      match w.abortEchoRes with
      | .fail =>
        ([.unmountEv c.id m, .logUnmountFailEv c.id, .abortEchoEv c.id],
         some (.abortFail c.id))
      | .ok =>
        match w.abortUmountRes with
        | .fail =>
          ([.unmountEv c.id m, .logUnmountFailEv c.id, .abortEchoEv c.id,
            .abortUmountEv c.id m], some (.abortFail c.id))
        | .ok =>
          ([.unmountEv c.id m, .logUnmountFailEv c.id, .abortEchoEv c.id,
            .abortUmountEv c.id m], none)
    else ([.unmountEv c.id m], some (.unmountFail c.id))

/-- teardown step 2 for one client (lines 214-219): `_wait_for_daemons`
over the whole registry with this client's `timeout`; a
`CommandFailedError` from it is re-raised unless `cleanup_on_failure`, in
which case it is logged and the loop moves on. -/
def stepTwo (daemons : List String) (c : Client) (w : World) :
    List Event × TDResult :=
  let r := waitForDaemons c daemons c.cfg.timeout w.waitScript
  match r.2 with
  | .ok => (r.1, .ok)
  | .scriptEnd => (r.1, .diverged c.id)
  | .cmdfail =>
    if c.cfg.cleanup_on_failure then
      (r.1 ++ [.logWaitFailEv c.id], .ok)
    else (r.1, .raised (.waitFail c.id))

/-- teardown steps 1-2 for one client (lines 198-219): step 1, and when
it did not raise, step 2. -/
def teardownSteps (daemons : List String) (c : Client) (w : World) :
    List Event × TDResult :=
  match stepOne c w with
  | (evs, some e) => (evs, .raised e)
  | (evs, none) =>
    let r := stepTwo daemons c w
    (evs ++ r.1, r.2)

/-- the sequential per-client teardown loop (lines 198-219): a raise (or a
wait loop that never returns) stops the loop; later clients are not
reached. -/
def teardownLoop (daemons : List String) :
    List (Client × World) → List Event × TDResult
  | [] => ([], .ok)
  | (c, w) :: rest =>
    match teardownSteps daemons c w with
    | (evs, .ok) =>
      let r := teardownLoop daemons rest
      (evs ++ r.1, r.2)
    | (evs, s) => (evs, s)

/-- the final directory-removal pass (lines 221-229): `rmdir` each mount
point in order; a failure raises, unconditionally, and stops the pass. -/
def rmdirAll : List (Client × World) → List Event × Option Err
  | [] => ([], none)
  | (c, w) :: rest =>
    match w.rmdirRes with
    | .fail => ([.rmdirEv c.id (mnt c.id)], some (.rmdirFail c.id))
    | .ok =>
      let r := rmdirAll rest
      (.rmdirEv c.id (mnt c.id) :: r.1, r.2)

/-- the whole `finally` block: steps 1-2 for every client, then, when no
iteration raised, the directory-removal pass. -/
def teardown (daemons : List String) (cws : List (Client × World)) :
    List Event × TDResult :=
  match teardownLoop daemons cws with
  | (evs, .ok) =>
    let r := rmdirAll cws
    (evs ++ r.1, match r.2 with | none => .ok | some e => .raised e)
  | (evs, s) => (evs, s)

/-- keys of the `fuse_daemons` registry after launch: every client id, in
launch order. -/
def daemonIds (cws : List (Client × World)) : List String :=
  cws.map fun p => p.1.id

/-- the whole `task` context manager: launch pass, mount-wait pass, the
`yield` to the enclosed workload (`body`: `none` = it returns, `some s` =
it raises `s`), then the `finally` teardown.  A teardown raise supersedes
the workload exception; a launch-phase raise happens before the
`try`/`finally` and so skips teardown entirely. -/
def task (vArgs : String → List String → List String)
    (cws : List (Client × World)) (body : Option String) :
    List Event × Outcome :=
  match launchAll vArgs cws with
  | (lEvs, some e) => (lEvs, .exn e)
  | (lEvs, none) =>
    match mountWaitAll cws with
    | (mEvs, some e) => (lEvs ++ mEvs, .exn e)
    | (mEvs, none) =>
      let t := teardown (daemonIds cws) cws
      let evs := lEvs ++ mEvs ++ [Event.yieldEv body] ++ t.1
      match t.2 with
      | .raised e => (evs, .exn e)
      | .diverged id => (evs, .diverged id)
      | .ok =>
        (evs, match body with | some s => .bodyExn s | none => .ok)

/-! ### Concrete fixtures used by witnesses and counterexamples -/

/-- a client with the default configuration. -/
def cA : Client := { id := "0", remote := "host0", cfg := {} }

/-- a client with `cleanup_on_failure: true` and `timeout: 5`. -/
def cB : Client :=
  { id := "1", remote := "host1",
    cfg := { timeout := some 5, cleanup_on_failure := true } }

/-- a world where every command succeeds and the first daemon wait
returns. -/
def wOk : World := {}

/-- Boolean classifiers of events, for binder-free trace statements. -/
def isRmdirEv : Event → Bool
  | .rmdirEv _ _ => true
  | _ => false

def isDaemonWaitEv : Event → Bool
  | .daemonWaitEv _ _ _ => true
  | _ => false

def isKillallEv : Event → Bool
  | .killallEv _ _ => true
  | _ => false

/-! ### Theorems -/

/-- C9: for every client, the graceful-stop signal class is the
instrumentation-aware variant (`'term'`) if and only if the client's
configuration sets `coverage` to a true value or provides a `valgrind`
entry; otherwise it is the plain variant (`'kill'`). -/
theorem daemonSignal_variant (cfg : ClientConfig) :
    (daemonSignal cfg = "term" ↔
      (cfg.coverage = true ∨ cfg.valgrind.isSome = true)) ∧
    (daemonSignal cfg = "kill" ↔
      (cfg.coverage = false ∧ cfg.valgrind = none)) := by
  rcases cfg with ⟨cov, vg, t, cl⟩
  cases cov <;> cases vg <;> simp [daemonSignal]

/-- C6: for every client, the launch command is the fixed wrapper head
(core-dump enabler, coverage wrapper with its archive argument, daemon
helper with the chosen `daemon_signal`), then, exactly when `valgrind`
instrumentation is requested, the `get_valgrind_args` sequence, then the
ceph-fuse invocation with its client identity and configuration-file
arguments, with the client's mount point as the final positional
argument. -/
theorem buildCmd_structure (vArgs : String → List String → List String)
    (c : Client) :
    (c.cfg.valgrind = none →
      buildCmd vArgs c = cmdHead (daemonSignal c.cfg) ++ cmdTail c.id) ∧
    (∀ v, c.cfg.valgrind = some v →
      buildCmd vArgs c
        = cmdHead (daemonSignal c.cfg) ++ vArgs ("client." ++ c.id) v
            ++ cmdTail c.id) ∧
    (buildCmd vArgs c).getLast? = some (mnt c.id) := by
  refine ⟨fun h => by simp [buildCmd, h], fun v h => by simp [buildCmd, h], ?_⟩
  have htail : cmdTail c.id ≠ [] := by simp [cmdTail]
  have hlast : (cmdTail c.id).getLast? = some (mnt c.id) := by rfl
  unfold buildCmd
  rw [List.append_assoc, List.getLast?_append_of_ne_nil,
    List.getLast?_append_of_ne_nil, hlast]
  · exact htail
  · simp [htail]

/-- C4: whenever a `run.wait` call inside `_wait_for_daemons` times out,
the loop logs a timeout message carrying the elapsed duration, sends
`killall -9 ceph-fuse` to the client's host, and re-enters the bounded
wait; the kill-and-rewait block repeats once per timeout, and the loop's
result is decided solely by the first non-timeout outcome — a timeout by
itself never produces an error. -/
theorem waitForDaemons_kill_and_rewait (c : Client) (daemons : List String)
    (tmo : Option Nat) (n : Nat) (o : WaitOutcome) (rest : List WaitOutcome)
    (ho : o ≠ .timeout) :
    waitForDaemons c daemons tmo (List.replicate n .timeout ++ o :: rest)
      = ((List.replicate n [Event.daemonWaitEv c.id daemons tmo,
            Event.logWaitTimeoutEv c.id tmo,
            Event.killallEv c.id c.remote]).flatten
           ++ [Event.daemonWaitEv c.id daemons tmo],
         if o = .ok then .ok else .cmdfail) := by
  induction n with
  | zero =>
    cases o with
    | ok => simp [waitForDaemons]
    | timeout => exact absurd rfl ho
    | cmdfail => simp [waitForDaemons]
  | succ n ih =>
    rw [List.replicate_succ, List.cons_append]
    simp only [waitForDaemons, ih, List.replicate_succ, List.flatten_cons,
      List.cons_append, List.append_assoc, List.nil_append]

/-- Witness for C4: two timeouts followed by a successful wait yield
exactly two log-and-kill rounds and three wait attempts. -/
theorem waitForDaemons_kill_and_rewait_witness :
    waitForDaemons cA ["0"] (some 5) [.timeout, .timeout, .ok]
      = ([Event.daemonWaitEv "0" ["0"] (some 5),
          Event.logWaitTimeoutEv "0" (some 5),
          Event.killallEv "0" "host0",
          Event.daemonWaitEv "0" ["0"] (some 5),
          Event.logWaitTimeoutEv "0" (some 5),
          Event.killallEv "0" "host0",
          Event.daemonWaitEv "0" ["0"] (some 5)], .ok) := by
  have h := waitForDaemons_kill_and_rewait cA ["0"] (some 5) 2 .ok []
    (by decide)
  simpa [cA] using h

/-- C5: if a client's graceful unmount fails and it has
`cleanup_on_failure`, the coordinator logs the failure and runs the
forced-abort sequence — first the FUSE-connection abort signal, then the
lazy+forced unmount — and a failure of either forced-abort command is not
caught: the iteration ends raised; when both succeed the iteration goes on
to the daemon wait. -/
theorem abort_on_unmount_failure (daemons : List String) (c : Client)
    (w : World) (hu : w.unmountRes = .fail)
    (hc : c.cfg.cleanup_on_failure = true) :
    (w.abortEchoRes = .fail →
      teardownSteps daemons c w
        = ([.unmountEv c.id (mnt c.id), .logUnmountFailEv c.id,
            .abortEchoEv c.id], .raised (.abortFail c.id))) ∧
    (w.abortEchoRes = .ok → w.abortUmountRes = .fail →
      teardownSteps daemons c w
        = ([.unmountEv c.id (mnt c.id), .logUnmountFailEv c.id,
            .abortEchoEv c.id, .abortUmountEv c.id (mnt c.id)],
           .raised (.abortFail c.id))) ∧
    (w.abortEchoRes = .ok → w.abortUmountRes = .ok →
      ∃ evs r,
        teardownSteps daemons c w
          = ([.unmountEv c.id (mnt c.id), .logUnmountFailEv c.id,
              .abortEchoEv c.id, .abortUmountEv c.id (mnt c.id)] ++ evs,
             r)) := by
  refine ⟨fun he => ?_, fun he hum => ?_, fun he hum => ?_⟩
  · simp [teardownSteps, stepOne, hu, hc, he]
  · simp [teardownSteps, stepOne, hu, hc, he, hum]
  · simp only [teardownSteps, stepOne, hu, hc, he, hum, if_true]
    exact ⟨_, _, rfl⟩

/-- Witness for C5: a failing unmount with `cleanup_on_failure` and a
failing abort-echo command ends that client's iteration raised after the
three recorded steps. -/
theorem abort_on_unmount_failure_witness :
    teardownSteps ["1"] cB { unmountRes := .fail, abortEchoRes := .fail }
      = ([.unmountEv "1" (mnt "1"), .logUnmountFailEv "1",
          .abortEchoEv "1"], .raised (.abortFail "1")) :=
  (abort_on_unmount_failure ["1"] cB
    { unmountRes := .fail, abortEchoRes := .fail } rfl rfl).1 rfl

/-- Step 1 of a client's teardown completes without raising exactly when
the unmount succeeds, or it fails with `cleanup_on_failure` set and both
forced-abort commands succeed. -/
def reachesWait (c : Client) (w : World) : Prop :=
  w.unmountRes = .ok ∨
    (c.cfg.cleanup_on_failure = true ∧ w.abortEchoRes = .ok ∧
      w.abortUmountRes = .ok)

/-- the first event of a nonempty wait script is the `run.wait` call on
the whole registry with the given timeout. -/
theorem waitForDaemons_head (c : Client) (daemons : List String)
    (tmo : Option Nat) (s : List WaitOutcome) (hs : s ≠ []) :
    ∃ tail, (waitForDaemons c daemons tmo s).1
      = Event.daemonWaitEv c.id daemons tmo :: tail := by
  match s, hs with
  | .ok :: s, _ => exact ⟨[], rfl⟩
  | .cmdfail :: s, _ => exact ⟨[], rfl⟩
  | .timeout :: s, _ =>
    exact ⟨_, rfl⟩

/-- C7: in teardown step 2 for client `c` (reached whenever step 1 did not
raise), the coordinator issues a `run.wait` on the registered daemons with
`timeout` equal to `c`'s configured `timeout` option — `some t` bounds the
wait, `none` waits indefinitely; and the registry passed by `task` holds
every launched client's id, in particular `c`'s own, so the wait covers
`c`'s daemon. -/
theorem daemon_wait_timeout (daemons : List String) (c : Client) (w : World)
    (h1 : reachesWait c w) (h2 : w.waitScript ≠ []) :
    Event.daemonWaitEv c.id daemons c.cfg.timeout
        ∈ (teardownSteps daemons c w).1 ∧
    ∀ (cws : List (Client × World)) (p : Client × World),
      p ∈ cws → p.1.id ∈ daemonIds cws := by
  constructor
  · obtain ⟨tail, htail⟩ :=
      waitForDaemons_head c daemons c.cfg.timeout w.waitScript h2
    have h2m : Event.daemonWaitEv c.id daemons c.cfg.timeout
        ∈ (stepTwo daemons c w).1 := by
      rcases hw : (waitForDaemons c daemons c.cfg.timeout w.waitScript).2 with
        _ | _ | _ <;>
        rcases hcl : c.cfg.cleanup_on_failure with _ | _ <;>
          simp [stepTwo, hw, hcl, htail]
    have h1n : (stepOne c w).2 = none := by
      rcases h1 with hu | ⟨hc, he, hum⟩
      · simp [stepOne, hu]
      · rcases hu2 : w.unmountRes with _ | _
        · simp [stepOne, hu2]
        · simp [stepOne, hu2, hc, he, hum]
    rcases hso : stepOne c w with ⟨evs1, r1⟩
    rw [hso] at h1n
    simp only at h1n
    subst h1n
    simp only [teardownSteps, hso]
    exact List.mem_append.mpr (Or.inr h2m)
  · intro cws p hp
    exact List.mem_map.mpr ⟨p, hp, rfl⟩

/-- Witness for C7: with a succeeding unmount and the one-element wait
script, the wait event with `client.1`'s five-second timeout is in its
step trace, and `"1"` is in the registry of a run holding that client. -/
theorem daemon_wait_timeout_witness :
    Event.daemonWaitEv "1" ["1"] (some 5)
        ∈ (teardownSteps ["1"] cB wOk).1 ∧
    ("1", cB.id) = ("1", "1") := by
  have h := daemon_wait_timeout ["1"] cB wOk (Or.inl rfl) (by decide)
  exact ⟨by simpa [cB] using h.1, rfl⟩

/-- the sequential teardown loop distributes over an append whose first
part completes without raising. -/
theorem teardownLoop_append (daemons : List String)
    (pre rest : List (Client × World))
    (h : (teardownLoop daemons pre).2 = .ok) :
    teardownLoop daemons (pre ++ rest)
      = ((teardownLoop daemons pre).1 ++ (teardownLoop daemons rest).1,
         (teardownLoop daemons rest).2) := by
  induction pre with
  | nil => simp [teardownLoop]
  | cons p pre ih =>
    obtain ⟨c, w⟩ := p
    rcases hs : teardownSteps daemons c w with ⟨evs, r⟩
    rcases r with _ | e | i
    · have h2 : (teardownLoop daemons pre).2 = .ok := by
        simp only [teardownLoop, hs] at h
        exact h
      simp only [List.cons_append, teardownLoop, hs,
        List.append_eq_has_append, ih h2, List.append_assoc]
    · simp only [teardownLoop, hs] at h
      exact TDResult.noConfusion h
    · simp only [teardownLoop, hs] at h
      exact TDResult.noConfusion h

/-- C3: when the teardown reaches client `c` (every earlier client's
steps 1-2 completed), `c` has `cleanup_on_failure` unset and `c`'s
graceful unmount fails, the whole teardown ends raised with that failure
after the earlier clients' events plus `c`'s single unmount attempt: no
teardown step — unmount, daemon wait, or directory removal — runs for any
later client, and the removal pass runs for no client at all. -/
theorem unmount_failure_aborts_rest (daemons : List String)
    (pre post : List (Client × World)) (c : Client) (w : World)
    (hpre : (teardownLoop daemons pre).2 = .ok)
    (hc : c.cfg.cleanup_on_failure = false)
    (hu : w.unmountRes = .fail) :
    teardown daemons (pre ++ (c, w) :: post)
      = ((teardownLoop daemons pre).1 ++ [Event.unmountEv c.id (mnt c.id)],
         .raised (.unmountFail c.id)) := by
  have hs : teardownSteps daemons c w
      = ([Event.unmountEv c.id (mnt c.id)], .raised (.unmountFail c.id)) := by
    simp [teardownSteps, stepOne, hu, hc]
  have hl : teardownLoop daemons ((c, w) :: post)
      = ([Event.unmountEv c.id (mnt c.id)], .raised (.unmountFail c.id)) := by
    simp [teardownLoop, hs]
  have := teardownLoop_append daemons pre ((c, w) :: post) hpre
  rw [hl] at this
  simp [teardown, this]

/-- Witness for C3: two clients; the first client's unmount fails with
`cleanup_on_failure` unset — the teardown raises at once and the second
client (and the removal pass) never appears in the trace. -/
theorem unmount_failure_aborts_rest_witness :
    teardown ["0", "1"]
        ([] ++ (cA, { unmountRes := .fail }) :: [(cB, wOk)])
      = ((teardownLoop ["0", "1"] []).1
           ++ [Event.unmountEv "0" (mnt "0")],
         .raised (.unmountFail "0")) :=
  unmount_failure_aborts_rest ["0", "1"] [] [(cB, wOk)] cA
    { unmountRes := .fail } rfl rfl rfl

/-- the removal pass distributes over an append whose first part
succeeds. -/
theorem rmdirAll_append (pre rest : List (Client × World))
    (h : (rmdirAll pre).2 = none) :
    rmdirAll (pre ++ rest)
      = ((rmdirAll pre).1 ++ (rmdirAll rest).1, (rmdirAll rest).2) := by
  induction pre with
  | nil => simp [rmdirAll]
  | cons p pre ih =>
    obtain ⟨c, w⟩ := p
    rcases hr : w.rmdirRes with _ | _
    · have h2 : (rmdirAll pre).2 = none := by
        simp only [rmdirAll, hr] at h
        exact h
      simp only [List.cons_append, rmdirAll, hr,
        List.append_eq_has_append, ih h2]
    · simp only [rmdirAll, hr] at h
      exact Option.noConfusion h

/-- C10: when steps 1-2 completed for every client and the removal pass
reaches client `c` (every earlier removal succeeded) whose `rmdir` fails,
the teardown ends raised with that failure — `cleanup_on_failure` is never
consulted (no hypothesis on any client's setting is needed) — and the
trace ends at `c`'s removal attempt, so no later client's directory is
removed. -/
theorem rmdir_failure_propagates (daemons : List String)
    (pre post : List (Client × World)) (c : Client) (w : World)
    (hok : (teardownLoop daemons (pre ++ (c, w) :: post)).2 = .ok)
    (hpre : (rmdirAll pre).2 = none)
    (hr : w.rmdirRes = .fail) :
    teardown daemons (pre ++ (c, w) :: post)
      = ((teardownLoop daemons (pre ++ (c, w) :: post)).1
           ++ ((rmdirAll pre).1 ++ [Event.rmdirEv c.id (mnt c.id)]),
         .raised (.rmdirFail c.id)) := by
  have h1 : rmdirAll ((c, w) :: post)
      = ([Event.rmdirEv c.id (mnt c.id)], some (.rmdirFail c.id)) := by
    simp [rmdirAll, hr]
  have h2 := rmdirAll_append pre ((c, w) :: post) hpre
  rw [h1] at h2
  rcases hl : teardownLoop daemons (pre ++ (c, w) :: post) with ⟨evs, r⟩
  rw [hl] at hok
  simp only at hok
  subst hok
  simp [teardown, hl, h2]

/-- Witness for C10: two clients whose steps complete; the first `rmdir`
fails (its client even has `cleanup_on_failure` set) — the teardown raises
and the second directory is not removed. -/
theorem rmdir_failure_propagates_witness :
    teardown ["1", "0"]
        ([] ++ (cB, { rmdirRes := .fail }) :: [(cA, wOk)])
      = ((teardownLoop ["1", "0"]
            ([] ++ (cB, { rmdirRes := .fail }) :: [(cA, wOk)])).1
           ++ ((rmdirAll []).1 ++ [Event.rmdirEv "1" (mnt "1")]),
         .raised (.rmdirFail "1")) :=
  rmdir_failure_propagates ["1", "0"] [] [(cA, wOk)] cB
    { rmdirRes := .fail } rfl rfl rfl

/-- a launch pass whose `mkdir`s all succeed records, per client in order,
the directory creation followed by the asynchronous daemon start. -/
theorem launchAll_ok (vArgs : String → List String → List String)
    (cws : List (Client × World)) (h : ∀ p ∈ cws, p.2.mkdirRes = .ok) :
    launchAll vArgs cws
      = ((cws.map fun p => [Event.mkdirEv p.1.id (mnt p.1.id),
            Event.launchEv p.1.id (buildCmd vArgs p.1)]).flatten, none) := by
  induction cws with
  | nil => rfl
  | cons p cws ih =>
    obtain ⟨c, w⟩ := p
    have hm : w.mkdirRes = .ok := h (c, w) (List.mem_cons_self _ _)
    have ht : ∀ q ∈ cws, q.2.mkdirRes = CmdResult.ok := fun q hq =>
      h q (List.mem_cons_of_mem _ hq)
    simp [launchAll, launchClient, hm, ih ht]

/-- a mount-wait pass that finds every mount records one wait per client,
in order. -/
theorem mountWaitAll_ok (cws : List (Client × World))
    (h : ∀ p ∈ cws, p.2.mountRes = .ok) :
    mountWaitAll cws
      = (cws.map fun p => Event.mountWaitEv p.1.id, none) := by
  induction cws with
  | nil => rfl
  | cons p cws ih =>
    obtain ⟨c, w⟩ := p
    have hm : w.mountRes = .ok := h (c, w) (List.mem_cons_self _ _)
    have ht : ∀ q ∈ cws, q.2.mountRes = CmdResult.ok := fun q hq =>
      h q (List.mem_cons_of_mem _ hq)
    simp [mountWaitAll, hm, ih ht]

/-- the sequential teardown loop's trace is the concatenation of the
per-client step traces of the clients it reached, in list order. -/
theorem teardownLoop_take (daemons : List String)
    (cws : List (Client × World)) :
    ∃ k, (teardownLoop daemons cws).1
      = ((cws.take k).map fun p =>
          (teardownSteps daemons p.1 p.2).1).flatten := by
  induction cws with
  | nil => exact ⟨0, rfl⟩
  | cons p cws ih =>
    obtain ⟨c, w⟩ := p
    rcases hs : teardownSteps daemons c w with ⟨evs, r⟩
    rcases r with _ | e | i
    · obtain ⟨k, hk⟩ := ih
      exact ⟨k + 1, by simp [teardownLoop, hs, List.take_succ_cons, hk]⟩
    · exact ⟨1, by simp [teardownLoop, hs]⟩
    · exact ⟨1, by simp [teardownLoop, hs]⟩

/-- C8: with every launch command succeeding, the run's phases are
strictly ordered — all per-client `mkdir`+launch pairs, then all
mount-waits, then the workload, then the sequential per-client teardown
steps 1-2, and the removal events only after steps 1-2 completed for all
clients (there are none when some iteration raised or hung); moreover the
teardown-steps trace is the concatenation of per-client step traces of a
prefix of the clients, in resolution order. -/
theorem phase_ordering (vArgs : String → List String → List String)
    (cws : List (Client × World)) (body : Option String)
    (hm : ∀ p ∈ cws, p.2.mkdirRes = .ok)
    (hw : ∀ p ∈ cws, p.2.mountRes = .ok) :
    ((task vArgs cws body).1
      = (cws.map fun p => [Event.mkdirEv p.1.id (mnt p.1.id),
            Event.launchEv p.1.id (buildCmd vArgs p.1)]).flatten
        ++ (cws.map fun p => Event.mountWaitEv p.1.id)
        ++ [Event.yieldEv body]
        ++ (teardownLoop (daemonIds cws) cws).1
        ++ (if (teardownLoop (daemonIds cws) cws).2 = .ok
            then (rmdirAll cws).1 else [])) ∧
    (∃ k, (teardownLoop (daemonIds cws) cws).1
      = ((cws.take k).map fun p =>
          (teardownSteps (daemonIds cws) p.1 p.2).1).flatten) := by
  refine ⟨?_, teardownLoop_take _ _⟩
  unfold task
  rw [launchAll_ok vArgs cws hm, mountWaitAll_ok cws hw]
  unfold teardown
  rcases hl : teardownLoop (daemonIds cws) cws with ⟨evs, r⟩
  rcases r with _ | e | i
  · rcases hr : (rmdirAll cws).2 with _ | e2 <;>
      simp [hl, hr, List.append_assoc]
  · simp [hl, List.append_assoc]
  · simp [hl, List.append_assoc]

/-- Witness for C8: one default client with everything succeeding. -/
theorem phase_ordering_witness :
    ((task (fun _ _ => []) [(cA, wOk)] none).1
      = ([(cA, wOk)].map fun p => [Event.mkdirEv p.1.id (mnt p.1.id),
            Event.launchEv p.1.id (buildCmd (fun _ _ => []) p.1)]).flatten
        ++ ([(cA, wOk)].map fun p => Event.mountWaitEv p.1.id)
        ++ [Event.yieldEv none]
        ++ (teardownLoop (daemonIds [(cA, wOk)]) [(cA, wOk)]).1
        ++ (if (teardownLoop (daemonIds [(cA, wOk)]) [(cA, wOk)]).2 = .ok
            then (rmdirAll [(cA, wOk)]).1 else [])) ∧
    (∃ k, (teardownLoop (daemonIds [(cA, wOk)]) [(cA, wOk)]).1
      = (([(cA, wOk)].take k).map fun p =>
          (teardownSteps (daemonIds [(cA, wOk)]) p.1 p.2).1).flatten) :=
  phase_ordering (fun _ _ => []) [(cA, wOk)] none
    (by intro p hp; rw [List.mem_singleton] at hp; subst hp; rfl)
    (by intro p hp; rw [List.mem_singleton] at hp; subst hp; rfl)

/-- the `get_valgrind_args` stand-in and the three-client scenario of the
spec's concrete teardown test. -/
def vNone : String → List String → List String := fun _ _ => []

def scenario3 : List (Client × World) :=
  [({ id := "0", remote := "h0", cfg := {} }, {}),
   ({ id := "1", remote := "h1", cfg := {} }, {}),
   ({ id := "2", remote := "h2", cfg := {} }, {})]

/-- C2: whatever the enclosed workload does (normal return or exception),
the teardown trace follows the workload marker in the run's trace; and in
the concrete scenario — 3 clients, no timeouts configured, every teardown
command succeeding, workload raising `"boom"` — all three mount-point
directories are removed and the workload's own exception is the one the
caller sees. -/
theorem teardown_on_every_exit :
    (∀ (vArgs : String → List String → List String)
        (cws : List (Client × World)) (body : Option String),
      (∀ p ∈ cws, p.2.mkdirRes = .ok) →
      (∀ p ∈ cws, p.2.mountRes = .ok) →
      ∃ pre, (task vArgs cws body).1
        = pre ++ [Event.yieldEv body] ++ (teardown (daemonIds cws) cws).1) ∧
    ((task vNone scenario3 (some "boom")).2 = .bodyExn "boom" ∧
      Event.rmdirEv "0" (mnt "0") ∈ (task vNone scenario3 (some "boom")).1 ∧
      Event.rmdirEv "1" (mnt "1") ∈ (task vNone scenario3 (some "boom")).1 ∧
      Event.rmdirEv "2" (mnt "2") ∈ (task vNone scenario3 (some "boom")).1) := by
  constructor
  · intro vArgs cws body h1 h2
    refine ⟨(cws.map fun p => [Event.mkdirEv p.1.id (mnt p.1.id),
        Event.launchEv p.1.id (buildCmd vArgs p.1)]).flatten
        ++ cws.map (fun p => Event.mountWaitEv p.1.id), ?_⟩
    unfold task
    rw [launchAll_ok vArgs cws h1, mountWaitAll_ok cws h2]
    rcases ht : teardown (daemonIds cws) cws with ⟨tEvs, tr⟩
    rcases tr with _ | e | i <;> simp [ht, List.append_assoc]
  · refine ⟨rfl, ?_, ?_, ?_⟩ <;> decide

/-- a wait loop that returned (did not run out of scripted outcomes)
issued at least one `run.wait` call on the registry. -/
theorem waitForDaemons_mem (c : Client) (daemons : List String)
    (tmo : Option Nat) (s : List WaitOutcome)
    (h : (waitForDaemons c daemons tmo s).2 ≠ .scriptEnd) :
    Event.daemonWaitEv c.id daemons tmo ∈ (waitForDaemons c daemons tmo s).1 := by
  cases s with
  | nil => exact absurd rfl h
  | cons o s => cases o <;> simp [waitForDaemons]

/-- step 1 always attempts the graceful unmount first. -/
theorem stepOne_unmount_mem (c : Client) (w : World) :
    Event.unmountEv c.id (mnt c.id) ∈ (stepOne c w).1 := by
  rcases hu : w.unmountRes with _ | _
  · simp [stepOne, hu]
  · rcases hcl : c.cfg.cleanup_on_failure with _ | _
    · simp [stepOne, hu, hcl]
    · rcases he : w.abortEchoRes with _ | _ <;>
        rcases hum : w.abortUmountRes with _ | _ <;>
        simp [stepOne, hu, hcl, he, hum]

/-- a step 2 that falls through issued at least one `run.wait`. -/
theorem stepTwo_ok_mem (daemons : List String) (c : Client) (w : World)
    (h : (stepTwo daemons c w).2 = .ok) :
    Event.daemonWaitEv c.id daemons c.cfg.timeout
      ∈ (stepTwo daemons c w).1 := by
  have hne : (waitForDaemons c daemons c.cfg.timeout w.waitScript).2
        = WaitResult.scriptEnd → False := by
    intro hw
    simp only [stepTwo, hw] at h
    exact TDResult.noConfusion h
  rcases hw : (waitForDaemons c daemons c.cfg.timeout w.waitScript).2 with
    _ | _ | _
  · have hmem := waitForDaemons_mem c daemons c.cfg.timeout w.waitScript
      (by rw [hw]; exact fun hx => WaitResult.noConfusion hx)
    simp only [stepTwo, hw]
    exact hmem
  · have hmem := waitForDaemons_mem c daemons c.cfg.timeout w.waitScript
      (by rw [hw]; exact fun hx => WaitResult.noConfusion hx)
    rcases hcl : c.cfg.cleanup_on_failure with _ | _
    · simp only [stepTwo, hw, hcl, if_false] at h
      exact TDResult.noConfusion h
    · simp only [stepTwo, hw, hcl, if_true]
      exact List.mem_append.mpr (Or.inl hmem)
  · exact absurd hw hne

/-- a client's steps 1-2 iteration that falls through has attempted the
graceful unmount and at least one daemon wait. -/
theorem teardownSteps_ok_mem (daemons : List String) (c : Client) (w : World)
    (h : (teardownSteps daemons c w).2 = .ok) :
    Event.unmountEv c.id (mnt c.id) ∈ (teardownSteps daemons c w).1 ∧
    Event.daemonWaitEv c.id daemons c.cfg.timeout
      ∈ (teardownSteps daemons c w).1 := by
  rcases hso : stepOne c w with ⟨evs1, r1⟩
  rcases r1 with _ | e
  · have h2 : (stepTwo daemons c w).2 = .ok := by
      simp only [teardownSteps, hso] at h
      exact h
    have hm1 := stepOne_unmount_mem c w
    rw [hso] at hm1
    have hm2 := stepTwo_ok_mem daemons c w h2
    simp only [teardownSteps, hso]
    exact ⟨List.mem_append.mpr (Or.inl hm1),
           List.mem_append.mpr (Or.inr hm2)⟩
  · simp only [teardownSteps, hso] at h
    exact TDResult.noConfusion h

/-- a teardown loop that falls through attempted the unmount and a daemon
wait for every client. -/
theorem teardownLoop_ok_mem (daemons : List String)
    (cws : List (Client × World))
    (h : (teardownLoop daemons cws).2 = .ok) :
    ∀ p ∈ cws,
      Event.unmountEv p.1.id (mnt p.1.id) ∈ (teardownLoop daemons cws).1 ∧
      Event.daemonWaitEv p.1.id daemons p.1.cfg.timeout
        ∈ (teardownLoop daemons cws).1 := by
  induction cws with
  | nil => intro p hp; cases hp
  | cons q cws ih =>
    obtain ⟨c, w⟩ := q
    rcases hs : teardownSteps daemons c w with ⟨evs, r⟩
    rcases r with _ | e | i
    · have h2 : (teardownLoop daemons cws).2 = .ok := by
        simp only [teardownLoop, hs] at h
        exact h
      intro p hp
      simp only [teardownLoop, hs]
      rcases List.mem_cons.mp hp with hp1 | hp2
      · subst hp1
        have hm := teardownSteps_ok_mem daemons c w (by rw [hs])
        rw [hs] at hm
        exact ⟨List.mem_append.mpr (Or.inl hm.1),
               List.mem_append.mpr (Or.inl hm.2)⟩
      · have hm := ih h2 p hp2
        exact ⟨List.mem_append.mpr (Or.inr hm.1),
               List.mem_append.mpr (Or.inr hm.2)⟩
    · simp only [teardownLoop, hs] at h
      exact TDResult.noConfusion h
    · simp only [teardownLoop, hs] at h
      exact TDResult.noConfusion h

/-- a removal pass that falls through removed every client's mount-point
directory. -/
theorem rmdirAll_mem (cws : List (Client × World))
    (h : (rmdirAll cws).2 = none) :
    ∀ p ∈ cws, Event.rmdirEv p.1.id (mnt p.1.id) ∈ (rmdirAll cws).1 := by
  induction cws with
  | nil => intro p hp; cases hp
  | cons q cws ih =>
    obtain ⟨c, w⟩ := q
    rcases hr : w.rmdirRes with _ | _
    · have h2 : (rmdirAll cws).2 = none := by
        simp only [rmdirAll, hr] at h
        exact h
      intro p hp
      simp only [rmdirAll, hr]
      rcases List.mem_cons.mp hp with hp1 | hp2
      · subst hp1
        exact List.mem_cons_self _ _
      · exact List.mem_cons_of_mem _ (ih h2 p hp2)
    · simp only [rmdirAll, hr] at h
      exact Option.noConfusion h

/-- the client of the C1 counterexample: `cleanup_on_failure` is set. -/
def cexClient : Client :=
  { id := "0", remote := "host0", cfg := { cleanup_on_failure := true } }

/-- its world: the graceful unmount fails, and so does the first
forced-abort command. -/
def cexWorld : World := { unmountRes := .fail, abortEchoRes := .fail }

/-- Counterexample to C1 as stated: this client received a daemon handle
(it is the registry's only entry) and has `cleanup_on_failure` set, its
unmount step fails, and the forced-abort echo command also fails — the
teardown ends raised with no daemon-wait attempt, no kill, and no
mount-point directory removal for the client. -/
theorem c1_counterexample :
    cexClient.cfg.cleanup_on_failure = true ∧
    (teardown [cexClient.id] [(cexClient, cexWorld)]).2
      = .raised (.abortFail "0") ∧
    (teardown [cexClient.id] [(cexClient, cexWorld)]).1.filter isRmdirEv
      = [] ∧
    (teardown [cexClient.id] [(cexClient, cexWorld)]).1.filter isDaemonWaitEv
      = [] ∧
    (teardown [cexClient.id] [(cexClient, cexWorld)]).1.filter isKillallEv
      = [] :=
  ⟨rfl, rfl, rfl, rfl, rfl⟩

/-- C1 (amended): for every client that received a daemon handle during
launch, if the teardown runs to completion without an uncaught error, the
orchestrator has attempted an unmount, attempted a wait on its daemon,
and removed its mount-point directory — regardless of whether that
client's own unmount or daemon-wait failed (tolerated when
`cleanup_on_failure` is set); an uncaught error (a forced-abort command
failure, a non-tolerated failure, or a removal failure) instead aborts
the teardown where it occurs. -/
theorem teardown_complete_covers_all (daemons : List String)
    (cws : List (Client × World)) (h : (teardown daemons cws).2 = .ok) :
    ∀ p ∈ cws,
      Event.unmountEv p.1.id (mnt p.1.id) ∈ (teardown daemons cws).1 ∧
      Event.daemonWaitEv p.1.id daemons p.1.cfg.timeout
        ∈ (teardown daemons cws).1 ∧
      Event.rmdirEv p.1.id (mnt p.1.id) ∈ (teardown daemons cws).1 := by
  rcases hl : teardownLoop daemons cws with ⟨evs, r⟩
  rcases r with _ | e | i
  · have hrm : (rmdirAll cws).2 = none := by
      simp only [teardown, hl] at h
      rcases hr : (rmdirAll cws).2 with _ | e2
      · rfl
      · rw [hr] at h
        exact TDResult.noConfusion h
    intro p hp
    have h1 := teardownLoop_ok_mem daemons cws (by rw [hl]) p hp
    rw [hl] at h1
    have h2 := rmdirAll_mem cws hrm p hp
    simp only [teardown, hl]
    exact ⟨List.mem_append.mpr (Or.inl h1.1),
           List.mem_append.mpr (Or.inl h1.2),
           List.mem_append.mpr (Or.inr h2)⟩
  · simp only [teardown, hl] at h
    exact TDResult.noConfusion h
  · simp only [teardown, hl] at h
    exact TDResult.noConfusion h

/-- Witness for C1 (amended): one default client whose teardown completes;
its unmount, daemon wait and directory removal are all in the trace. -/
theorem teardown_complete_covers_all_witness :
    Event.unmountEv "0" (mnt "0") ∈ (teardown ["0"] [(cA, wOk)]).1 ∧
    Event.daemonWaitEv "0" ["0"] none ∈ (teardown ["0"] [(cA, wOk)]).1 ∧
    Event.rmdirEv "0" (mnt "0") ∈ (teardown ["0"] [(cA, wOk)]).1 := by
  have h := teardown_complete_covers_all ["0"] [(cA, wOk)] rfl (cA, wOk)
    (List.mem_singleton.mpr rfl)
  simpa [cA] using h

end CephFuse
